import Mathlib

/-!
# Verification of the interview-trainer frontend service layer and cache schema

Shallow embedding of the parts of the `aGautrain/interview-trainer` repository
that the specification talks about:

* `database/job_analysis_tables.sql` — the `job_analysis_cache` table, its
  `UNIQUE` constraint on `job_description_hash`, and the
  `cleanup_expired_cache()` function;
* `frontend/src/services/jobAnalysisService.ts` — the `JobAnalysisService`
  class (`analyzeJob`, `extractSkills`, `getTrainingRecommendations`,
  `getHealthStatus`, `handleError`, `validateJobAnalysisRequest`) and the
  `analysisUtils` grouping helpers;
* `frontend/src/pages/JobTargeting.tsx` — `handleAnalyzeJob`,
  `handleRetryAnalysis`, `handleClearResults`, `handleNewAnalysis`;
* `frontend/src/pages/SkillTraining.tsx` — the question/exercise index
  handlers and the section rendering logic.

Conventions of the embedding: JavaScript strings are Lean `String`s
(`String.length` counts characters where JS counts UTF-16 units; every string
the code manipulates here is ASCII, where the two agree).  JS truthiness on
optional strings is `none`/`""` ↦ false.  `number` fields that the code only
adds and divides are embedded as `ℚ`.  Async methods are embedded as pure
functions taking the network outcome as an explicit argument and returning,
besides their result, the list of HTTP requests they issued.
-/

namespace InterviewTrainer

/-! ## Enums from `jobAnalysisService.ts` -/

inductive AnalysisStatus where
  | pending
  | in_progress
  | completed
  | failed
  | cached
  deriving DecidableEq, Repr

inductive SkillImportance where
  | critical
  | important
  | preferred
  | nice_to_have
  deriving DecidableEq, Repr

inductive TrainingPriority where
  | high
  | medium
  | low
  deriving DecidableEq, Repr

inductive DifficultyLevel where
  | beginner
  | intermediate
  | advanced
  | expert
  deriving DecidableEq, Repr

inductive SkillType where
  | programming_language
  | framework
  | library
  | db
  | tool
  | cloud_platform
  | soft_skill
  | domain_knowledge
  | certification
  | other
  deriving DecidableEq, Repr

/-! ## JavaScript string primitives

`jsTrim` models `String.prototype.trim` (drop leading and trailing
whitespace); `jsOrS` models `a || b` on strings (`""` is falsy). -/

def jsTrim (s : String) : String :=
  ⟨((s.data.dropWhile Char.isWhitespace).reverse.dropWhile Char.isWhitespace).reverse⟩

def jsOrS (a b : String) : String :=
  if a = "" then b else a

/-- JS truthiness of an optional string (`undefined` and `""` are falsy). -/
def jsTruthy : Option String → Bool
  | none => false
  | some s => s ≠ ""

/-! ## Request / response / error interfaces -/

/-- Embedding of `Partial<JobAnalysisRequest>`: every field optional, as received by
`validateJobAnalysisRequest`.  `analysis_depth` is an arbitrary string here
because the validator itself checks membership in the allowed set. -/
structure JobAnalysisRequestPartial where
  job_description : Option String := none
  job_title : Option String := none
  company_name : Option String := none
  company_context : Option String := none
  analysis_depth : Option String := none
  user_id : Option String := none
  deriving DecidableEq, Repr

/-- Interface `SkillRecommendation` from `jobAnalysisService.ts`. -/
structure SkillRecommendation where
  name : String
  category : String
  skill_type : Option SkillType := none
  importance : SkillImportance
  priority : TrainingPriority
  years_required : Option ℚ := none
  context : Option String := none
  recommended_actions : List String := []
  estimated_duration : Option String := none
  difficulty_level : DifficultyLevel
  prerequisite_skills : List String := []
  learning_resources : List String := []
  success_metrics : List String := []
  synonyms : List String := []
  related_skills : List String := []
  deriving DecidableEq, Repr

/-- Interface `ExtractedSkillEnhanced` as declared in the earlier revision of the
service file (the one defining `analysisUtils.getAverageConfidence`), where it
carries a `confidence_score`. -/
structure ExtractedSkillEnhanced where
  name : String
  category : String
  skill_type : Option SkillType := none
  importance : SkillImportance
  years_required : Option ℚ := none
  context : Option String := none
  confidence_score : ℚ
  synonyms : List String := []
  related_skills : List String := []
  deriving DecidableEq, Repr

/-- Interface `JobAnalysisResult` from `jobAnalysisService.ts`; `analysis_metadata`
(`Record<string, any>`) is embedded as a string-keyed association list. -/
structure JobAnalysisResult where
  job_title : Option String := none
  company_name : Option String := none
  industry : String
  key_requirements : List String := []
  skill_recommendations : List SkillRecommendation := []
  experience_level : String
  difficulty_assessment : DifficultyLevel
  role_summary : String
  compensation_insights : Option String := none
  analysis_metadata : List (String × String) := []
  deriving DecidableEq, Repr

/-- Interface `JobAnalysisResponse` from `jobAnalysisService.ts`. -/
structure JobAnalysisResponse where
  success : Bool
  status : AnalysisStatus
  result : Option JobAnalysisResult := none
  error_message : Option String := none
  processing_time_ms : Option ℚ := none
  llm_provider : Option String := none
  tokens_used : Option Nat := none
  cache_hit : Bool
  analysis_id : String
  deriving DecidableEq, Repr

/-- Interface `JobAnalysisError` (`details: Record<string, any>` is not tracked: no
claim depends on it). -/
structure JobAnalysisError where
  message : String
  status : Option Nat := none
  code : Option String := none
  deriving DecidableEq, Repr

/-- Interface `JobAnalysisState` from `jobAnalysisService.ts`. -/
structure JobAnalysisState where
  isLoading : Bool
  error : Option JobAnalysisError
  result : Option JobAnalysisResult
  analysisId : Option String := none
  deriving DecidableEq, Repr

/-! ## `handleError`

A thrown JS value is either an `Error` carrying an axios-style `response`
(with `status` and optional `data.detail` / `data.message`), a plain `Error`
with a message, or an arbitrary non-`Error` value. -/

structure HttpResponseData where
  detail : Option String := none
  message : Option String := none
  deriving DecidableEq, Repr

structure HttpErrorResponse where
  data : Option HttpResponseData := none
  status : Nat
  deriving DecidableEq, Repr

inductive Thrown where
  | errWithResponse (response : HttpErrorResponse)
  | err (message : String)
  | nonError
  deriving DecidableEq, Repr

/-- Whether the thrown value is an `Error` carrying an HTTP response. -/
def Thrown.carriesResponse : Thrown → Bool
  | .errWithResponse _ => true
  | _ => false

/-- Optional-chained field access `response.data?.f`, collapsed to `""` when
absent (both `undefined` and `""` are falsy to the `||` chain that consumes
it). -/
def dataField (response : HttpErrorResponse) (f : HttpResponseData → Option String) : String :=
  ((response.data.bind f).getD "")

/-- Method `JobAnalysisService.handleError(error, defaultMessage)`. -/
def handleError (error : Thrown) (defaultMessage : String) : JobAnalysisError :=
  match error with
  | .errWithResponse response =>
      { message := jsOrS (dataField response HttpResponseData.detail)
          (jsOrS (dataField response HttpResponseData.message) defaultMessage)
        status := some response.status }
  | .err message =>
      { message := jsOrS message defaultMessage }
  | .nonError =>
      { message := defaultMessage }

/-! ## `validateJobAnalysisRequest` -/

def depthAllowedValues : List String := ["basic", "standard", "comprehensive"]

/-- Method `JobAnalysisService.validateJobAnalysisRequest`. -/
def validateJobAnalysisRequest (request : JobAnalysisRequestPartial) :
    List JobAnalysisError :=
  let errors : List JobAnalysisError := []
  let errors := if !(jsTruthy (request.job_description.map jsTrim)) then
      errors ++ [{ message := "Job description is required",
                   code := some "MISSING_JOB_DESCRIPTION" }]
    else errors
  let errors := if jsTruthy request.job_description
      && decide ((request.job_description.getD "").length < 50) then
      errors ++ [{ message := "Job description should be at least 50 characters long",
                   code := some "JOB_DESCRIPTION_TOO_SHORT" }]
    else errors
  let errors := if jsTruthy request.analysis_depth
      && !(depthAllowedValues.contains (request.analysis_depth.getD "")) then
      errors ++ [{ message := "Invalid analysis depth. Must be basic, standard, or comprehensive",
                   code := some "INVALID_ANALYSIS_DEPTH" }]
    else errors
  errors

/-! ## Endpoint URLs

`encodeURIComponent` percent-encodes every character outside the unreserved
set `A–Z a–z 0–9 - _ . ! ~ * ' ( )`, byte by byte over the character's UTF-8
encoding.  `URLSearchParams.toString` uses the `x-www-form-urlencoded`
serializer instead: unreserved set `A–Z a–z 0–9 * - . _` and space ↦ `+`. -/

def hexDigitChar (n : Nat) : Char :=
  if n < 10 then Char.ofNat (48 + n) else Char.ofNat (55 + n)

def percentEncodeByte (b : UInt8) : String :=
  ⟨['%', hexDigitChar (b.toNat / 16), hexDigitChar (b.toNat % 16)]⟩

def uriUnreservedChar (c : Char) : Bool :=
  c.isAlphanum || c ∈ ['-', '_', '.', '!', '~', '*', Char.ofNat 39, '(', ')']

def encodeURIComponent (s : String) : String :=
  String.join (s.data.map fun c =>
    if uriUnreservedChar c then String.singleton c
    else String.join ((String.utf8EncodeChar c).map percentEncodeByte))

def formUnreservedChar (c : Char) : Bool :=
  c.isAlphanum || c ∈ ['*', '-', '.', '_']

def formUrlEncode (s : String) : String :=
  String.join (s.data.map fun c =>
    if c = ' ' then "+"
    else if formUnreservedChar c then String.singleton c
    else String.join ((String.utf8EncodeChar c).map percentEncodeByte))

inductive HttpMethod where
  | get
  | post
  deriving DecidableEq, Repr

/-- One HTTP request as issued through `apiService`. -/
structure ApiCall where
  method : HttpMethod
  url : String
  deriving DecidableEq, Repr

/-- Field `private readonly baseUrl` of the service class. -/
def baseUrl : String := "/job-analysis"

/-- The request `analyzeJob` issues. -/
def analyzeJobCall : ApiCall :=
  ⟨.post, baseUrl ++ "/analyze"⟩

/-- The request `extractSkills` issues (when the text is non-blank). -/
def extractSkillsCall (contextType : String) : ApiCall :=
  ⟨.post, baseUrl ++ "/extract-skills?context_type=" ++ encodeURIComponent contextType⟩

/-- Serialization of `const params = new URLSearchParams(); if (userId) params.append(..)`:
serialized.  `if (userId)` is JS truthiness: `undefined` and `""` both skip the
append. -/
def recommendationsParams (userId : Option String) : String :=
  match userId with
  | some u => if u = "" then "" else "user_id=" ++ formUrlEncode u
  | none => ""

/-- The URL `getTrainingRecommendations` targets:
`` `${baseUrl}/recommendations/${analysisId}${params.toString() ? `?${params.toString()}` : ''}` ``. -/
def getTrainingRecommendationsUrl (analysisId : String) (userId : Option String) : String :=
  let params := recommendationsParams userId
  baseUrl ++ "/recommendations/" ++ analysisId ++ (if params = "" then "" else "?" ++ params)

/-- The request `getTrainingRecommendations` issues. -/
def getTrainingRecommendationsCall (analysisId : String) (userId : Option String) : ApiCall :=
  ⟨.get, getTrainingRecommendationsUrl analysisId userId⟩

/-- The request `getHealthStatus` issues. -/
def getHealthStatusCall : ApiCall :=
  ⟨.get, baseUrl ++ "/health"⟩

/-! ## `extractSkills`

The async method is embedded with the network outcome as an explicit
argument; the second component of the result is the list of HTTP requests the
call issued.  A thrown `Error` is converted by the surrounding
`catch { throw this.handleError(error, 'Failed to extract skills from text') }`. -/

inductive NetworkOutcome (α : Type) where
  | ok (value : α)
  | failure (thrown : Thrown)
  deriving DecidableEq, Repr

def extractSkills (text : String) (contextType : String)
    (network : NetworkOutcome (List ExtractedSkillEnhanced)) :
    Except JobAnalysisError (List ExtractedSkillEnhanced) × List ApiCall :=
  if jsTrim text = "" then
    (.error (handleError (.err "Text content cannot be empty")
        "Failed to extract skills from text"), [])
  else
    match network with
    | .ok skills => (.ok skills, [extractSkillsCall contextType])
    | .failure t => (.error (handleError t "Failed to extract skills from text"),
        [extractSkillsCall contextType])

/-! ## `JobTargeting.tsx`: `handleAnalyzeJob` and the page state machine -/

/-- What `await jobAnalysisService.analyzeJob(request)` does: either a parsed
`JobAnalysisResponse` comes back, or a value is thrown (and `analyzeJob`
rethrows it as `this.handleError(error, 'Failed to analyze job description')`). -/
inductive AnalyzeOutcome where
  | response (response : JobAnalysisResponse)
  | thrown (t : Thrown)
  deriving DecidableEq, Repr

/-- Result of one invocation of `handleAnalyzeJob`: the final
`analysisState` and the HTTP requests issued along the way. -/
structure HandlerOutcome where
  state : JobAnalysisState
  requests : List ApiCall
  deriving DecidableEq, Repr

/-- Handler `handleAnalyzeJob` from `JobTargeting.tsx`.  The two early returns keep
the previous state apart from `error` (spread of `prev`); the request path
replaces the whole state. -/
def handleAnalyzeJob (prev : JobAnalysisState) (jobDescription : String)
    (outcome : AnalyzeOutcome) : HandlerOutcome :=
  if jsTrim jobDescription = "" then
    { state := { prev with error := some { message := "Please enter a job description to analyze",
                                           code := some "EMPTY_JOB_DESCRIPTION" } },
      requests := [] }
  else
    match validateJobAnalysisRequest { job_description := some jobDescription } with
    | e :: _ => { state := { prev with error := some e }, requests := [] }
    | [] =>
      match outcome with
      | .response response =>
        if response.success && response.result.isSome then
          { state := { isLoading := false, error := none, result := response.result,
                       analysisId := some response.analysis_id },
            requests := [analyzeJobCall] }
        else
          { state := { isLoading := false,
                       error := some { message := jsOrS (response.error_message.getD "")
                                         "Analysis failed",
                                       status := some (if response.success then 200 else 500) },
                       result := none, analysisId := some response.analysis_id },
            requests := [analyzeJobCall] }
      | .thrown t =>
          { state := { isLoading := false,
                       error := some (handleError t "Failed to analyze job description"),
                       result := none, analysisId := none },
            requests := [analyzeJobCall] }

/-- State of the `JobTargeting` page: the textarea content and the analysis
state. -/
structure PageState where
  jobDescription : String
  analysis : JobAnalysisState
  deriving DecidableEq, Repr

/-- The user-triggered events of the page.  `analyzeClick` is the Analyze
button, `retryClick` the Try Again button of the error panel
(`handleRetryAnalysis`, which just calls `handleAnalyzeJob`), `clearClick`
`handleClearResults`, `newAnalysisClick` `handleNewAnalysis`, and
`editDescription` typing in the textarea. -/
inductive PageEvent where
  | analyzeClick (outcome : AnalyzeOutcome)
  | retryClick (outcome : AnalyzeOutcome)
  | clearClick
  | newAnalysisClick
  | editDescription (text : String)
  deriving DecidableEq, Repr

structure PageTransition where
  next : PageState
  requests : List ApiCall
  deriving DecidableEq, Repr

def clearedAnalysisState : JobAnalysisState :=
  { isLoading := false, error := none, result := none, analysisId := none }

/-- One step of the `JobTargeting` page. -/
def pageStep (s : PageState) (e : PageEvent) : PageTransition :=
  match e with
  | .analyzeClick outcome =>
      let h := handleAnalyzeJob s.analysis s.jobDescription outcome
      ⟨{ s with analysis := h.state }, h.requests⟩
  | .retryClick outcome =>
      let h := handleAnalyzeJob s.analysis s.jobDescription outcome
      ⟨{ s with analysis := h.state }, h.requests⟩
  | .clearClick => ⟨{ s with analysis := clearedAnalysisState }, []⟩
  | .newAnalysisClick => ⟨{ jobDescription := "", analysis := clearedAnalysisState }, []⟩
  | .editDescription text => ⟨{ s with jobDescription := text }, []⟩

/-! ## `job_analysis_tables.sql`: the cache table -/

/-- One row of `job_analysis_cache`.  Timestamps are integers; JSONB payloads
are kept as strings (no claim inspects them). -/
structure CacheRow where
  id : Nat
  job_description_hash : String
  analysis_request : String
  analysis_result : String
  llm_provider : String
  tokens_used : Option Nat := none
  expires_at : Int
  hit_count : Nat := 0
  deriving DecidableEq, Repr

/-- An `INSERT` into `job_analysis_cache`: the
`job_description_hash VARCHAR(32) UNIQUE NOT NULL` constraint rejects a row
whose hash is already present (expired or not). -/
def insertCacheRow (table : List CacheRow) (row : CacheRow) :
    Option (List CacheRow) :=
  if table.any (fun r => r.job_description_hash = row.job_description_hash) then none
  else some (table ++ [row])

/-- Function `cleanup_expired_cache()`:
`DELETE FROM job_analysis_cache WHERE expires_at < CURRENT_TIMESTAMP` and
return `ROW_COUNT`.  Returns the surviving table and the deleted count. -/
def cleanup_expired_cache (table : List CacheRow) (now : Int) :
    List CacheRow × Nat :=
  (table.filter (fun r => !(decide (r.expires_at < now))),
   (table.filter (fun r => r.expires_at < now)).length)

/-- The database states reachable from the empty table through the schema's
operations on `job_analysis_cache`: constrained inserts and
`cleanup_expired_cache`. -/
inductive CacheReachable : List CacheRow → Prop where
  | empty : CacheReachable []
  | insert (table row table2) : CacheReachable table →
      insertCacheRow table row = some table2 → CacheReachable table2
  | cleanup (table now) : CacheReachable table →
      CacheReachable (cleanup_expired_cache table now).1

/-! ## `SkillTraining.tsx`: index handlers and section rendering -/

/-- Handler `handleSubmitAnswer`:
`if (currentQuestionIndex <= questions.length - 1) setCurrentQuestionIndex(currentQuestionIndex + 1)`.
The comparison is JS number arithmetic, so `length - 1` is `-1` for an empty
list; it is embedded in `Int`. -/
def handleSubmitAnswer (questionsLength currentQuestionIndex : Nat) : Nat :=
  if (currentQuestionIndex : Int) ≤ (questionsLength : Int) - 1 then
    currentQuestionIndex + 1
  else currentQuestionIndex

/-- Handler `handlePreviousQuestion`:
`if (currentQuestionIndex > 0) setCurrentQuestionIndex(currentQuestionIndex - 1)`. -/
def handlePreviousQuestion (currentQuestionIndex : Nat) : Nat :=
  if 0 < currentQuestionIndex then currentQuestionIndex - 1 else currentQuestionIndex

/-- Handler `handleSubmitExercise`, same shape as `handleSubmitAnswer`. -/
def handleSubmitExercise (exercisesLength currentExerciseIndex : Nat) : Nat :=
  if (currentExerciseIndex : Int) ≤ (exercisesLength : Int) - 1 then
    currentExerciseIndex + 1
  else currentExerciseIndex

/-- Handler `handlePreviousExercise`, same shape as `handlePreviousQuestion`. -/
def handlePreviousExercise (currentExerciseIndex : Nat) : Nat :=
  if 0 < currentExerciseIndex then currentExerciseIndex - 1 else currentExerciseIndex

/-- What the active tab renders. -/
inductive SectionView where
  | completeState
  | itemsSection
  | emptyState
  deriving DecidableEq, Repr

/-- The questions tab:
`questions.length > 0 && (currentQuestionIndex >= questions.length ? <CompleteState/> : <QuestionsSection/>)`,
with `<EmptyState/>` when `questions.length === 0`. -/
def questionsSectionView (questionsLength currentQuestionIndex : Nat) : SectionView :=
  if 0 < questionsLength then
    if questionsLength ≤ currentQuestionIndex then .completeState else .itemsSection
  else .emptyState

/-- The exercises tab, same shape. -/
def exercisesSectionView (exercisesLength currentExerciseIndex : Nat) : SectionView :=
  if 0 < exercisesLength then
    if exercisesLength ≤ currentExerciseIndex then .completeState else .itemsSection
  else .emptyState

/-- Question indices reachable from the initial `useState(0)` through the two
handlers. -/
inductive QuestionIndexReachable (questionsLength : Nat) : Nat → Prop where
  | start : QuestionIndexReachable questionsLength 0
  | submit (i) : QuestionIndexReachable questionsLength i →
      QuestionIndexReachable questionsLength (handleSubmitAnswer questionsLength i)
  | previous (i) : QuestionIndexReachable questionsLength i →
      QuestionIndexReachable questionsLength (handlePreviousQuestion i)

/-- Exercise indices reachable from the initial `useState(0)` through the two
handlers. -/
inductive ExerciseIndexReachable (exercisesLength : Nat) : Nat → Prop where
  | start : ExerciseIndexReachable exercisesLength 0
  | submit (i) : ExerciseIndexReachable exercisesLength i →
      ExerciseIndexReachable exercisesLength (handleSubmitExercise exercisesLength i)
  | previous (i) : ExerciseIndexReachable exercisesLength i →
      ExerciseIndexReachable exercisesLength (handlePreviousExercise i)

/-! ## `analysisUtils`: grouping and averaging

The `reduce` in `getSkillsByImportance` / `getSkillsByCategory` builds a JS
object: string-keyed properties enumerate in insertion order, a new key is
appended at the end, and `push` appends to the existing group.  The object is
embedded as an association list in insertion order. -/

/-- One step of the `reduce` body:
`if (!groups[k]) groups[k] = []; groups[k].push(skill)`. -/
def addToGroup {K S : Type} [DecidableEq K]
    (groups : List (K × List S)) (k : K) (s : S) : List (K × List S) :=
  match groups with
  | [] => [(k, [s])]
  | (k0, v) :: rest =>
      if k0 = k then (k0, v ++ [s]) :: rest else (k0, v) :: addToGroup rest k s

/-- The whole `reduce` over the skills list, keyed by `key`. -/
def groupByKey {K S : Type} [DecidableEq K] (key : S → K) (skills : List S) :
    List (K × List S) :=
  skills.foldl (fun groups s => addToGroup groups (key s) s) []

/-- Property access `groups[k]` on the built object (`[]` when absent). -/
def groupLookup {K S : Type} [DecidableEq K]
    (groups : List (K × List S)) (k : K) : List S :=
  ((groups.find? (fun p => p.1 = k)).map Prod.snd).getD []

/-- Utility `analysisUtils.getSkillsByImportance`. -/
def getSkillsByImportance (skills : List SkillRecommendation) :
    List (SkillImportance × List SkillRecommendation) :=
  groupByKey SkillRecommendation.importance skills

/-- Utility `analysisUtils.getSkillsByCategory`. -/
def getSkillsByCategory (skills : List SkillRecommendation) :
    List (String × List SkillRecommendation) :=
  groupByKey SkillRecommendation.category skills

/-- Utility `analysisUtils.getAverageConfidence` (from the service revision whose
skills carry `confidence_score`). -/
def getAverageConfidence (skills : List ExtractedSkillEnhanced) : ℚ :=
  if skills.length = 0 then 0
  else (skills.foldl (fun sum skill => sum + skill.confidence_score) 0) /
    (skills.length : ℚ)

/-! ## Concrete sample values (used to evaluate the theorems below) -/

def demoCacheRowFresh : CacheRow :=
  { id := 1, job_description_hash := "9a0364b9e99bb480", analysis_request := "req1",
    analysis_result := "res1", llm_provider := "openai", expires_at := 100 }

def demoCacheRowStale : CacheRow :=
  { id := 2, job_description_hash := "1f3870be274f6c49", analysis_request := "req2",
    analysis_result := "res2", llm_provider := "openai", expires_at := 1 }

def demoSkillReact : ExtractedSkillEnhanced :=
  { name := "React", category := "frontend", importance := .critical,
    confidence_score := 1/2 }

def demoSkillSql : ExtractedSkillEnhanced :=
  { name := "SQL", category := "data", importance := .important,
    confidence_score := 1 }

def demoRecReact : SkillRecommendation :=
  { name := "React", category := "frontend", importance := .critical,
    priority := .high, difficulty_level := .intermediate }

def demoRecVue : SkillRecommendation :=
  { name := "Vue", category := "frontend", importance := .preferred,
    priority := .medium, difficulty_level := .beginner }

def demoRecSql : SkillRecommendation :=
  { name := "SQL", category := "data", importance := .critical,
    priority := .high, difficulty_level := .advanced }

def demoDescription : String :=
  "Senior frontend engineer with strong React, TypeScript and testing experience"

def demoResult : JobAnalysisResult :=
  { industry := "software", skill_recommendations := [demoRecReact, demoRecSql],
    experience_level := "senior", difficulty_assessment := .advanced,
    role_summary := "Builds and tests frontend features" }

def demoResponse : JobAnalysisResponse :=
  { success := true, status := .completed, result := some demoResult,
    cache_hit := false, analysis_id := "a1" }

/-! ## General lemmas -/

theorem jsOrS_ne_empty (a b : String) (hb : b ≠ "") : jsOrS a b ≠ "" := by
  unfold jsOrS
  split
  · exact hb
  · assumption

theorem string_append_assoc (a b c : String) : a ++ b ++ c = a ++ (b ++ c) := by
  apply String.ext
  simp only [String.data_append, List.append_assoc]

theorem string_append_empty (a : String) : a ++ "" = a := by
  apply String.ext
  simp [String.data_append]

theorem user_id_prefix_append_ne_empty (x : String) : "user_id=" ++ x ≠ "" := by
  intro h
  have hl := congrArg String.length h
  rw [String.length_append] at hl
  have h8 : ("user_id=" : String).length = 8 := rfl
  have h0 : ("" : String).length = 0 := rfl
  omega

theorem foldl_add_rat {α : Type} (f : α → ℚ) (l : List α) (a : ℚ) :
    l.foldl (fun sum x => sum + f x) a = a + (l.map f).sum := by
  induction l generalizing a with
  | nil => simp
  | cons x rest ih => simp [ih, add_assoc]

/-! ## C3: `handleError` always yields a message; status tracks the response -/

/-- C3: for every thrown value and non-empty default message,
`JobAnalysisService.handleError` returns a `JobAnalysisError` whose `message`
is a non-empty string, and whose `status` is set exactly when the thrown
value carries an HTTP response status; it never fails to return such an
object. -/
theorem handleError_spec (error : Thrown) (defaultMessage : String)
    (h : defaultMessage ≠ "") :
    (handleError error defaultMessage).message ≠ ""
    ∧ ((handleError error defaultMessage).status.isSome
        ↔ error.carriesResponse = true) := by
  cases error with
  | errWithResponse response =>
      exact ⟨jsOrS_ne_empty _ _ (jsOrS_ne_empty _ _ h), by
        simp [handleError, Thrown.carriesResponse]⟩
  | err message =>
      exact ⟨jsOrS_ne_empty _ _ h, by simp [handleError, Thrown.carriesResponse]⟩
  | nonError =>
      exact ⟨h, by simp [handleError, Thrown.carriesResponse]⟩

/-- Witness for C3 at a concrete thrown value. -/
theorem handleError_spec_witness :
    (handleError (.err "boom") "Failed to analyze job description").message ≠ ""
    ∧ ((handleError (.err "boom") "Failed to analyze job description").status.isSome
        ↔ Thrown.carriesResponse (.err "boom") = true) :=
  handleError_spec (.err "boom") "Failed to analyze job description" (by decide)

/-! ## C5: `cleanup_expired_cache` deletes exactly the expired rows -/

/-- C5: `cleanup_expired_cache` deletes exactly the rows whose `expires_at`
is strictly before the current timestamp and returns their count; every row
with `expires_at` at or after the current timestamp survives unchanged (with
its multiplicity and relative order), and no other criterion removes a row. -/
theorem cleanup_expired_cache_spec (table : List CacheRow) (now : Int) :
    (cleanup_expired_cache table now).2
        = (table.filter (fun r => r.expires_at < now)).length
    ∧ (∀ r, r ∈ (cleanup_expired_cache table now).1 ↔
        r ∈ table ∧ ¬ r.expires_at < now)
    ∧ (cleanup_expired_cache table now).1.Sublist table
    ∧ (∀ r, ¬ r.expires_at < now →
        (cleanup_expired_cache table now).1.count r = table.count r) := by
  refine ⟨rfl, ?_, ?_, ?_⟩
  · intro r
    simp [cleanup_expired_cache, List.mem_filter]
  · exact List.filter_sublist table
  · intro r hr
    simp only [cleanup_expired_cache]
    rw [List.count_filter]
    simp [hr]

/-- Witness for C5 on a two-row table: the fresh row survives, the stale row
is counted as deleted. -/
theorem cleanup_expired_cache_spec_witness :
    demoCacheRowFresh ∈ (cleanup_expired_cache [demoCacheRowFresh, demoCacheRowStale] 50).1
    ∧ (cleanup_expired_cache [demoCacheRowFresh, demoCacheRowStale] 50).2
        = ([demoCacheRowFresh, demoCacheRowStale].filter (fun r => r.expires_at < 50)).length :=
  ⟨((cleanup_expired_cache_spec [demoCacheRowFresh, demoCacheRowStale] 50).2.1
      demoCacheRowFresh).mpr ⟨by decide, by decide⟩,
   (cleanup_expired_cache_spec [demoCacheRowFresh, demoCacheRowStale] 50).1⟩

/-! ## C8: `extractSkills` rejects blank text without a request -/

/-- C8: for every input whose trimmed form is empty, `extractSkills` throws a
`JobAnalysisError` with message `Text content cannot be empty` and issues no
HTTP request; for every non-blank text it issues exactly one POST to the
extract-skills endpoint. -/
theorem extractSkills_spec (text contextType : String)
    (network : NetworkOutcome (List ExtractedSkillEnhanced)) :
    (jsTrim text = "" →
      extractSkills text contextType network
        = (.error { message := "Text content cannot be empty" }, []))
    ∧ (jsTrim text ≠ "" →
        (extractSkills text contextType network).2 = [extractSkillsCall contextType]) := by
  constructor
  · intro h
    unfold extractSkills
    rw [if_pos h]
    rfl
  · intro h
    unfold extractSkills
    rw [if_neg h]
    cases network <;> rfl

/-- Witness for C8: a blank text is rejected without a request, and a
non-blank one issues exactly the extract-skills POST. -/
theorem extractSkills_spec_witness :
    extractSkills "   " "job_description" (.ok [])
        = (.error { message := "Text content cannot be empty" }, [])
    ∧ (extractSkills "react developer" "job_description" (.ok [demoSkillReact])).2
        = [extractSkillsCall "job_description"] :=
  ⟨(extractSkills_spec "   " "job_description" (.ok [])).1 (by decide),
   (extractSkills_spec "react developer" "job_description" (.ok [demoSkillReact])).2
     (by decide)⟩

/-! ## C9: `getAverageConfidence` is total and guards its division -/

/-- C9: `analysisUtils.getAverageConfidence` returns `0` for the empty list,
and for every non-empty list returns the sum of the `confidence_score`
fields divided by the length; the divisor of the division branch is never
zero there. -/
theorem getAverageConfidence_spec (skills : List ExtractedSkillEnhanced) :
    getAverageConfidence [] = 0
    ∧ (skills ≠ [] →
        getAverageConfidence skills
          = (skills.map ExtractedSkillEnhanced.confidence_score).sum /
              (skills.length : ℚ)
        ∧ ((skills.length : ℚ) ≠ 0)) := by
  refine ⟨rfl, fun h => ⟨?_, ?_⟩⟩
  · have hlen : skills.length ≠ 0 := by
      simpa using fun hc => h (List.length_eq_zero.mp hc)
    unfold getAverageConfidence
    rw [if_neg hlen, foldl_add_rat, zero_add]
  · have hlen : skills.length ≠ 0 := by
      simpa using fun hc => h (List.length_eq_zero.mp hc)
    exact_mod_cast hlen

/-- Witness for C9 on a concrete two-skill list. -/
theorem getAverageConfidence_spec_witness :
    getAverageConfidence [demoSkillReact, demoSkillSql]
      = ([demoSkillReact, demoSkillSql].map ExtractedSkillEnhanced.confidence_score).sum /
          (([demoSkillReact, demoSkillSql] : List ExtractedSkillEnhanced).length : ℚ) :=
  ((getAverageConfidence_spec [demoSkillReact, demoSkillSql]).2 (by simp)).1

/-! ## C6: the service methods and their endpoints -/

/-- C6 counterexample: a `userId` argument that is provided but empty does
not append a `user_id` query parameter — `if (userId)` is falsy on `""` — so
"appends `user_id` iff a `userId` argument is provided" fails at
`userId = ""`. -/
theorem getTrainingRecommendationsUrl_empty_userId :
    getTrainingRecommendationsUrl "abc123" (some "")
        = "/job-analysis/recommendations/abc123"
    ∧ getTrainingRecommendationsUrl "abc123" (some "")
        = getTrainingRecommendationsUrl "abc123" none :=
  ⟨rfl, rfl⟩

/-- C6 (amended): `analyzeJob` POSTs to `/job-analysis/analyze`,
`extractSkills` POSTs to `/job-analysis/extract-skills` with `context_type`
URL-encoded as a query parameter, `getTrainingRecommendations` GETs
`/job-analysis/recommendations/analysisId` appending a `user_id` query
parameter if and only if a non-empty `userId` argument is provided, and
`getHealthStatus` GETs `/job-analysis/health`. -/
theorem jobAnalysisService_endpoints :
    analyzeJobCall = { method := .post, url := "/job-analysis/analyze" }
    ∧ (∀ contextType, extractSkillsCall contextType
        = { method := .post,
            url := "/job-analysis/extract-skills?context_type="
              ++ encodeURIComponent contextType })
    ∧ getHealthStatusCall = { method := .get, url := "/job-analysis/health" }
    ∧ (∀ analysisId, getTrainingRecommendationsCall analysisId none
        = { method := .get, url := "/job-analysis/recommendations/" ++ analysisId })
    ∧ (∀ analysisId userId, userId ≠ "" →
        getTrainingRecommendationsCall analysisId (some userId)
          = { method := .get,
              url := "/job-analysis/recommendations/" ++ analysisId
                ++ "?user_id=" ++ formUrlEncode userId })
    ∧ (∀ analysisId, getTrainingRecommendationsCall analysisId (some "")
        = getTrainingRecommendationsCall analysisId none) := by
  refine ⟨rfl, fun contextType => rfl, rfl, ?_, ?_, fun analysisId => rfl⟩
  · intro analysisId
    have hurl : getTrainingRecommendationsUrl analysisId none
        = "/job-analysis/recommendations/" ++ analysisId := by
      simp only [getTrainingRecommendationsUrl, recommendationsParams]
      rw [if_pos trivial, string_append_empty,
        show baseUrl ++ "/recommendations/" = "/job-analysis/recommendations/" from rfl]
    show ApiCall.mk .get (getTrainingRecommendationsUrl analysisId none) = _
    rw [hurl]
  · intro analysisId userId hu
    have hurl : getTrainingRecommendationsUrl analysisId (some userId)
        = "/job-analysis/recommendations/" ++ analysisId
          ++ "?user_id=" ++ formUrlEncode userId := by
      simp only [getTrainingRecommendationsUrl, recommendationsParams]
      rw [if_neg hu, if_neg (user_id_prefix_append_ne_empty (formUrlEncode userId)),
        show baseUrl ++ "/recommendations/" = "/job-analysis/recommendations/" from rfl,
        ← string_append_assoc "?" "user_id=" (formUrlEncode userId),
        show ("?" : String) ++ "user_id=" = "?user_id=" from rfl,
        ← string_append_assoc ("/job-analysis/recommendations/" ++ analysisId) "?user_id="
          (formUrlEncode userId)]
    show ApiCall.mk .get (getTrainingRecommendationsUrl analysisId (some userId)) = _
    rw [hurl]

/-- Witness for C6 (amended) at concrete arguments. -/
theorem jobAnalysisService_endpoints_witness :
    getTrainingRecommendationsCall "a1" (some "user 42")
      = { method := .get,
          url := "/job-analysis/recommendations/" ++ "a1" ++ "?user_id="
            ++ formUrlEncode "user 42" } :=
  ((jobAnalysisService_endpoints).2.2.2.2.1 "a1" "user 42" (by decide))

/-! ## C2: a valid request passes validation and its result carries the skills -/

/-- C2: every analysis request whose description is non-blank and longer
than 50 characters (and whose `analysis_depth`, when present, is one of
`basic`, `standard`, `comprehensive`) passes `validateJobAnalysisRequest`
with no errors; `handleAnalyzeJob` then POSTs the analyze request, and a
successful response makes the final state carry the `result` object together
with its `skill_recommendations` field. -/
theorem analyzeJob_valid_request_spec (s : String) (depth : Option String)
    (prev : JobAnalysisState) (response : JobAnalysisResponse)
    (r : JobAnalysisResult)
    (hne : jsTrim s ≠ "") (hlen : 50 < s.length)
    (hdepth : depth = none ∨ depth ∈ depthAllowedValues.map some)
    (hsucc : response.success = true) (hres : response.result = some r) :
    validateJobAnalysisRequest { job_description := some s, analysis_depth := depth } = []
    ∧ (handleAnalyzeJob prev s (.response response)).requests = [analyzeJobCall]
    ∧ (handleAnalyzeJob prev s (.response response)).state
        = { isLoading := false, error := none, result := some r,
            analysisId := some response.analysis_id }
    ∧ ((handleAnalyzeJob prev s (.response response)).state.result.map
          JobAnalysisResult.skill_recommendations) = some r.skill_recommendations := by
  have hlt : ¬ s.length < 50 := by omega
  have hval : validateJobAnalysisRequest
      { job_description := some s, analysis_depth := depth } = [] := by
    rcases hdepth with hd | hd
    · subst hd
      simp [validateJobAnalysisRequest, jsTruthy, hne, hlt]
    · rcases List.mem_map.mp hd with ⟨d, hdmem, rfl⟩
      simp [validateJobAnalysisRequest, jsTruthy, hne, hlt, hdmem]
  have hval0 : validateJobAnalysisRequest { job_description := some s } = [] := by
    rcases hdepth with hd | hd
    · rwa [hd] at hval
    · simp [validateJobAnalysisRequest, jsTruthy, hne, hlt]
  have hcond : (response.success && response.result.isSome) = true := by
    rw [hsucc, hres]
    rfl
  have hstate : (handleAnalyzeJob prev s (.response response)).state
      = { isLoading := false, error := none, result := some r,
          analysisId := some response.analysis_id } := by
    unfold handleAnalyzeJob
    rw [if_neg hne, hval0]
    simp only [hcond, if_true]
    rw [hres]
  refine ⟨hval, ?_, hstate, ?_⟩
  · unfold handleAnalyzeJob
    rw [if_neg hne, hval0]
    simp only [hcond, if_true]
  · rw [hstate]
    rfl

/-- Witness for C2 on a concrete 78-character description and a successful
response. -/
theorem analyzeJob_valid_request_witness :
    (handleAnalyzeJob clearedAnalysisState demoDescription (.response demoResponse)).state
      = { isLoading := false, error := none, result := some demoResult,
          analysisId := some "a1" } :=
  (analyzeJob_valid_request_spec demoDescription none clearedAnalysisState
      demoResponse demoResult (by decide) (by decide) (Or.inl rfl) rfl rfl).2.2.1

/-! ## C4: no automatic retry after a failed analysis -/

theorem handleAnalyzeJob_requests_ne_nil {prev : JobAnalysisState} {d : String}
    {outcome : AnalyzeOutcome}
    (h : (handleAnalyzeJob prev d outcome).requests ≠ []) :
    jsTrim d ≠ "" ∧ validateJobAnalysisRequest { job_description := some d } = [] := by
  by_cases hd : jsTrim d = ""
  · exfalso
    apply h
    unfold handleAnalyzeJob
    rw [if_pos hd]
  · refine ⟨hd, ?_⟩
    cases hv : validateJobAnalysisRequest { job_description := some d } with
    | nil => rfl
    | cons e rest =>
        exfalso
        apply h
        unfold handleAnalyzeJob
        rw [if_neg hd, hv]

/-- C4: after a failed analysis the page holds the error with `isLoading`
false and no result; the only events that issue a request are the
user-triggered analyze and retry clicks, and retry is exactly
`handleAnalyzeJob` re-run on the unchanged job description. -/
theorem no_automatic_retry_spec (s : PageState) (t : Thrown)
    (response : JobAnalysisResponse) (outcome : AnalyzeOutcome) (e : PageEvent) :
    ((pageStep s (.analyzeClick (.thrown t))).requests ≠ [] →
      (pageStep s (.analyzeClick (.thrown t))).next.analysis
        = { isLoading := false,
            error := some (handleError t "Failed to analyze job description"),
            result := none, analysisId := none })
    ∧ ((pageStep s (.analyzeClick (.response response))).requests ≠ [] →
        ((response.success && response.result.isSome) = false) →
        ((pageStep s (.analyzeClick (.response response))).next.analysis.isLoading = false
          ∧ (pageStep s (.analyzeClick (.response response))).next.analysis.result = none
          ∧ (pageStep s (.analyzeClick (.response response))).next.analysis.error ≠ none))
    ∧ ((pageStep s e).requests ≠ [] →
        (∃ o, e = .analyzeClick o) ∨ (∃ o, e = .retryClick o))
    ∧ pageStep s (.retryClick outcome) = pageStep s (.analyzeClick outcome)
    ∧ (pageStep s (.retryClick outcome)).next.jobDescription = s.jobDescription := by
  refine ⟨?_, ?_, ?_, rfl, ?_⟩
  · intro h
    obtain ⟨hd, hval⟩ := handleAnalyzeJob_requests_ne_nil
      (h : (handleAnalyzeJob s.analysis s.jobDescription (.thrown t)).requests ≠ [])
    show (handleAnalyzeJob s.analysis s.jobDescription (.thrown t)).state = _
    unfold handleAnalyzeJob
    rw [if_neg hd, hval]
  · intro h hfail
    obtain ⟨hd, hval⟩ := handleAnalyzeJob_requests_ne_nil
      (h : (handleAnalyzeJob s.analysis s.jobDescription (.response response)).requests ≠ [])
    have hstate : (handleAnalyzeJob s.analysis s.jobDescription (.response response)).state
        = { isLoading := false,
            error := some { message := jsOrS (response.error_message.getD "") "Analysis failed",
                            status := some (if response.success then 200 else 500) },
            result := none, analysisId := some response.analysis_id } := by
      unfold handleAnalyzeJob
      rw [if_neg hd, hval]
      simp only [hfail, Bool.false_eq_true, if_false]
    refine ⟨?_, ?_, ?_⟩
    · show (handleAnalyzeJob s.analysis s.jobDescription (.response response)).state.isLoading = false
      rw [hstate]
    · show (handleAnalyzeJob s.analysis s.jobDescription (.response response)).state.result = none
      rw [hstate]
    · show (handleAnalyzeJob s.analysis s.jobDescription (.response response)).state.error ≠ none
      rw [hstate]
      simp
  · intro h
    cases e with
    | analyzeClick o => exact Or.inl ⟨o, rfl⟩
    | retryClick o => exact Or.inr ⟨o, rfl⟩
    | clearClick => exact absurd rfl h
    | newAnalysisClick => exact absurd rfl h
    | editDescription text => exact absurd rfl h
  · rfl

/-- Witness for C4: a concrete failed analysis on a concrete page state. -/
theorem no_automatic_retry_spec_witness :
    (pageStep { jobDescription := demoDescription, analysis := clearedAnalysisState }
        (.analyzeClick (.thrown (.err "boom")))).next.analysis
      = { isLoading := false,
          error := some (handleError (.err "boom") "Failed to analyze job description"),
          result := none, analysisId := none } :=
  (no_automatic_retry_spec
      { jobDescription := demoDescription, analysis := clearedAnalysisState }
      (.err "boom") demoResponse (.thrown (.err "boom")) .clearClick).1 (by decide)

/-! ## C1: at most one row per description hash -/

theorem filter_key_length_le_one {α β : Type} [DecidableEq β] (f : α → β)
    (l : List α) (h : (l.map f).Nodup) (c : β) :
    (l.filter (fun x => f x = c)).length ≤ 1 := by
  induction l with
  | nil => simp
  | cons x xs ih =>
      simp only [List.map_cons, List.nodup_cons] at h
      obtain ⟨hx, hxs⟩ := h
      by_cases hfx : f x = c
      · have hempty : xs.filter (fun y => decide (f y = c)) = [] := by
          rw [List.filter_eq_nil_iff]
          intro a ha
          simp only [decide_eq_true_eq]
          intro hac
          exact hx (hfx ▸ hac ▸ List.mem_map_of_mem f ha)
        simp [List.filter_cons, hfx, hempty]
      · simpa [List.filter_cons, hfx] using ih hxs

theorem cacheReachable_hash_nodup {table : List CacheRow}
    (h : CacheReachable table) :
    (table.map CacheRow.job_description_hash).Nodup := by
  induction h with
  | empty => simp
  | insert t row t2 _ hins ih =>
      unfold insertCacheRow at hins
      by_cases hany :
          t.any (fun r => r.job_description_hash = row.job_description_hash) = true
      · rw [if_pos hany] at hins
        cases hins
      · rw [if_neg hany] at hins
        obtain rfl := Option.some.inj hins
        rw [List.map_append]
        refine (List.perm_append_singleton _ _).nodup_iff.mpr (List.nodup_cons.mpr ⟨?_, ih⟩)
        intro hmem
        obtain ⟨r, hr, heq⟩ := List.mem_map.mp hmem
        exact hany (List.any_eq_true.mpr ⟨r, hr, by simp [heq]⟩)
  | cleanup t now _ ih =>
      exact ih.sublist ((List.filter_sublist t).map CacheRow.job_description_hash)

/-- C1: in every reachable state of `job_analysis_cache`, the description
hashes are pairwise distinct; inserting a row whose hash is already present
(expired or not) is rejected by the `UNIQUE` constraint; hence at most one
row — in particular at most one non-expired row — exists per hash. -/
theorem job_analysis_cache_unique_hash (table : List CacheRow)
    (h : CacheReachable table) :
    (table.map CacheRow.job_description_hash).Nodup
    ∧ (∀ row, (∃ r ∈ table, r.job_description_hash = row.job_description_hash) →
        insertCacheRow table row = none)
    ∧ (∀ hash, (table.filter (fun r =>
        r.job_description_hash = hash)).length ≤ 1)
    ∧ (∀ now hash, (table.filter (fun r =>
        r.job_description_hash = hash ∧ ¬ r.expires_at < now)).length ≤ 1) := by
  have hnodup := cacheReachable_hash_nodup h
  refine ⟨hnodup, ?_, ?_, ?_⟩
  · rintro row ⟨r, hr, hh⟩
    unfold insertCacheRow
    rw [if_pos (List.any_eq_true.mpr ⟨r, hr, by simp [hh]⟩)]
  · intro hash
    exact filter_key_length_le_one CacheRow.job_description_hash table hnodup hash
  · intro now hash
    have hsub : List.Sublist
        (table.filter (fun r =>
          r.job_description_hash = hash ∧ ¬ r.expires_at < now))
        (table.filter (fun r => r.job_description_hash = hash)) := by
      apply List.monotone_filter_right
      intro r hr
      simp only [decide_eq_true_eq] at hr ⊢
      exact hr.1
    exact le_trans hsub.length_le
      (filter_key_length_le_one CacheRow.job_description_hash table hnodup hash)

/-- Witness for C1 on a concrete reachable two-row table: its hashes are
distinct and re-inserting the first row is rejected. -/
theorem job_analysis_cache_unique_hash_witness :
    ([demoCacheRowFresh, demoCacheRowStale].map CacheRow.job_description_hash).Nodup
    ∧ insertCacheRow [demoCacheRowFresh, demoCacheRowStale] demoCacheRowFresh = none := by
  have hreach : CacheReachable [demoCacheRowFresh, demoCacheRowStale] :=
    .insert [demoCacheRowFresh] demoCacheRowStale _
      (.insert [] demoCacheRowFresh _ .empty (by decide)) (by decide)
  have h := job_analysis_cache_unique_hash [demoCacheRowFresh, demoCacheRowStale] hreach
  exact ⟨h.1, h.2.1 demoCacheRowFresh ⟨demoCacheRowFresh, by decide, rfl⟩⟩

/-! ## C7: the grouping utilities partition the skill list -/

section GroupByLemmas

variable {K S : Type} [DecidableEq K]

theorem groupLookup_cons_self (k : K) (v : List S) (rest : List (K × List S)) :
    groupLookup ((k, v) :: rest) k = v := by
  unfold groupLookup
  rw [List.find?_cons_of_pos _ (by simp)]
  rfl

theorem groupLookup_cons_ne {k0 k : K} (h : k0 ≠ k) (v : List S)
    (rest : List (K × List S)) :
    groupLookup ((k0, v) :: rest) k = groupLookup rest k := by
  unfold groupLookup
  rw [List.find?_cons_of_neg _ (by simp [h])]

theorem groupLookup_addToGroup_self (groups : List (K × List S)) (k : K) (s : S) :
    groupLookup (addToGroup groups k s) k = groupLookup groups k ++ [s] := by
  induction groups with
  | nil => simp [addToGroup, groupLookup]
  | cons p rest ih =>
      obtain ⟨k0, v⟩ := p
      unfold addToGroup
      by_cases hk : k0 = k
      · subst hk
        rw [if_pos rfl, groupLookup_cons_self, groupLookup_cons_self]
      · rw [if_neg hk, groupLookup_cons_ne hk, groupLookup_cons_ne hk, ih]

theorem groupLookup_addToGroup_ne (groups : List (K × List S)) (k : K) (s : S)
    {k2 : K} (h : k2 ≠ k) :
    groupLookup (addToGroup groups k s) k2 = groupLookup groups k2 := by
  induction groups with
  | nil => simp [addToGroup, groupLookup, Ne.symm h]
  | cons p rest ih =>
      obtain ⟨k0, v⟩ := p
      unfold addToGroup
      by_cases hk : k0 = k
      · subst hk
        rw [if_pos rfl, groupLookup_cons_ne (Ne.symm h), groupLookup_cons_ne (Ne.symm h)]
      · by_cases hk2 : k0 = k2
        · subst hk2
          rw [if_neg hk, groupLookup_cons_self, groupLookup_cons_self]
        · rw [if_neg hk, groupLookup_cons_ne hk2, groupLookup_cons_ne hk2, ih]

theorem groupLookup_foldl (key : S → K) (l : List S) (g : List (K × List S)) (k : K) :
    groupLookup (l.foldl (fun groups s => addToGroup groups (key s) s) g) k
      = groupLookup g k ++ l.filter (fun s => key s = k) := by
  induction l generalizing g with
  | nil => simp
  | cons s rest ih =>
      rw [List.foldl_cons, ih]
      by_cases hk : key s = k
      · subst hk
        rw [groupLookup_addToGroup_self, List.filter_cons_of_pos (by simp),
          List.append_assoc]
        rfl
      · rw [groupLookup_addToGroup_ne _ _ _ (fun he => hk he.symm),
          List.filter_cons_of_neg (by simp [hk])]

theorem groupLookup_groupByKey (key : S → K) (l : List S) (k : K) :
    groupLookup (groupByKey key l) k = l.filter (fun s => key s = k) := by
  have h := groupLookup_foldl key l [] k
  simpa [groupByKey, groupLookup] using h

theorem map_fst_addToGroup (groups : List (K × List S)) (k : K) (s : S) :
    (addToGroup groups k s).map Prod.fst
      = if k ∈ groups.map Prod.fst then groups.map Prod.fst
        else groups.map Prod.fst ++ [k] := by
  induction groups with
  | nil => simp [addToGroup]
  | cons p rest ih =>
      obtain ⟨k0, v⟩ := p
      unfold addToGroup
      by_cases hk : k0 = k
      · subst hk
        rw [if_pos rfl]
        simp
      · rw [if_neg hk]
        simp only [List.map_cons, ih, List.mem_cons]
        by_cases hmem : k ∈ rest.map Prod.fst
        · simp [hmem]
        · simp [hmem, Ne.symm hk]

theorem map_fst_groupByKey_nodup (key : S → K) (l : List S) :
    ((groupByKey key l).map Prod.fst).Nodup := by
  suffices h : ∀ g : List (K × List S), (g.map Prod.fst).Nodup →
      ((l.foldl (fun groups s => addToGroup groups (key s) s) g).map Prod.fst).Nodup by
    exact h [] (by simp)
  induction l with
  | nil => intro g hg; simpa using hg
  | cons s rest ih =>
      intro g hg
      rw [List.foldl_cons]
      apply ih
      rw [map_fst_addToGroup]
      split
      · exact hg
      · rename_i hmem
        exact (List.perm_append_singleton _ _).nodup_iff.mpr
          (List.nodup_cons.mpr ⟨hmem, hg⟩)

theorem flatten_map_snd_addToGroup (groups : List (K × List S)) (k : K) (s : S) :
    ((addToGroup groups k s).map Prod.snd).flatten.Perm
      ((groups.map Prod.snd).flatten ++ [s]) := by
  induction groups with
  | nil => simp [addToGroup]
  | cons p rest ih =>
      obtain ⟨k0, v⟩ := p
      unfold addToGroup
      by_cases hk : k0 = k
      · subst hk
        rw [if_pos rfl]
        simp only [List.map_cons, List.flatten_cons]
        rw [List.append_assoc v [s] ((rest.map Prod.snd).flatten),
          List.append_assoc v ((rest.map Prod.snd).flatten) [s]]
        exact List.Perm.append_left v List.perm_append_comm
      · rw [if_neg hk]
        simp only [List.map_cons, List.flatten_cons]
        rw [List.append_assoc v ((rest.map Prod.snd).flatten) [s]]
        exact List.Perm.append_left v ih

theorem flatten_map_snd_groupByKey (key : S → K) (l : List S) :
    ((groupByKey key l).map Prod.snd).flatten.Perm l := by
  suffices h : ∀ g : List (K × List S),
      ((l.foldl (fun groups s => addToGroup groups (key s) s) g).map Prod.snd).flatten.Perm
        ((g.map Prod.snd).flatten ++ l) by
    simpa [groupByKey] using h []
  induction l with
  | nil => intro g; simp
  | cons s rest ih =>
      intro g
      rw [List.foldl_cons]
      have h1 := ih (addToGroup g (key s) s)
      have h2 := (flatten_map_snd_addToGroup g (key s) s).append_right rest
      have h3 : ((g.map Prod.snd).flatten ++ [s]) ++ rest
          = (g.map Prod.snd).flatten ++ (s :: rest) := by
        rw [List.append_assoc]
        rfl
      exact h1.trans (h3 ▸ h2)

end GroupByLemmas

/-- C7: `getSkillsByImportance` and `getSkillsByCategory` partition the skill
list: the group at each key is exactly the input's sublist of skills carrying
that key (so every skill lands in the single group of its own importance,
respectively category, in input order), the keys are pairwise distinct, and
the concatenation of all groups is a permutation of the input. -/
theorem analysisUtils_grouping_partition (skills : List SkillRecommendation) :
    (∀ imp, groupLookup (getSkillsByImportance skills) imp
        = skills.filter (fun skill => skill.importance = imp))
    ∧ ((getSkillsByImportance skills).map Prod.fst).Nodup
    ∧ ((getSkillsByImportance skills).map Prod.snd).flatten.Perm skills
    ∧ (∀ cat, groupLookup (getSkillsByCategory skills) cat
        = skills.filter (fun skill => skill.category = cat))
    ∧ ((getSkillsByCategory skills).map Prod.fst).Nodup
    ∧ ((getSkillsByCategory skills).map Prod.snd).flatten.Perm skills :=
  ⟨fun imp => groupLookup_groupByKey SkillRecommendation.importance skills imp,
   map_fst_groupByKey_nodup SkillRecommendation.importance skills,
   flatten_map_snd_groupByKey SkillRecommendation.importance skills,
   fun cat => groupLookup_groupByKey SkillRecommendation.category skills cat,
   map_fst_groupByKey_nodup SkillRecommendation.category skills,
   flatten_map_snd_groupByKey SkillRecommendation.category skills⟩

/-- Witness for C7: on a concrete three-skill list, the `critical` group is
exactly the two critical skills in input order. -/
theorem analysisUtils_grouping_partition_witness :
    groupLookup (getSkillsByImportance [demoRecReact, demoRecVue, demoRecSql])
        SkillImportance.critical
      = [demoRecReact, demoRecSql] := by
  rw [(analysisUtils_grouping_partition [demoRecReact, demoRecVue, demoRecSql]).1
    SkillImportance.critical]
  decide

/-! ## C10: SkillTraining index bounds and completion rendering -/

theorem questionIndex_le {questionsLength i : Nat}
    (h : QuestionIndexReachable questionsLength i) : i ≤ questionsLength := by
  induction h with
  | start => exact Nat.zero_le _
  | submit i _ ih =>
      unfold handleSubmitAnswer
      split
      · rename_i hcond
        omega
      · exact ih
  | previous i _ ih =>
      unfold handlePreviousQuestion
      split <;> omega

theorem exerciseIndex_le {exercisesLength i : Nat}
    (h : ExerciseIndexReachable exercisesLength i) : i ≤ exercisesLength := by
  induction h with
  | start => exact Nat.zero_le _
  | submit i _ ih =>
      unfold handleSubmitExercise
      split
      · rename_i hcond
        omega
      · exact ih
  | previous i _ ih =>
      unfold handlePreviousExercise
      split <;> omega

/-- C10 counterexample: with an empty question list, the initial reachable
index 0 equals the list length, yet the page renders the empty state and not
the completion state — so "completion is rendered exactly when the index
equals the list length" fails on empty lists. -/
theorem skillTraining_completion_empty_counterexample :
    QuestionIndexReachable 0 0
    ∧ questionsSectionView 0 0 ≠ SectionView.completeState
    ∧ questionsSectionView 0 0 = SectionView.emptyState :=
  ⟨.start, by decide, by decide⟩

/-- C10 (amended): starting from index 0, the submit and previous handlers
keep the question index within `[0, questions.length]` and the exercise
index within `[0, exercises.length]` (submit increments exactly when the
index is below the list length, previous decrements exactly when it is above
0), and for a non-empty list the completion state is rendered exactly when
the index equals the list length (an empty list renders the empty state
instead). -/
theorem skillTraining_index_bounds (qLen qIdx eLen eIdx : Nat)
    (hq : QuestionIndexReachable qLen qIdx)
    (he : ExerciseIndexReachable eLen eIdx) :
    qIdx ≤ qLen ∧ eIdx ≤ eLen
    ∧ (0 < qLen →
        (questionsSectionView qLen qIdx = SectionView.completeState ↔ qIdx = qLen))
    ∧ (0 < eLen →
        (exercisesSectionView eLen eIdx = SectionView.completeState ↔ eIdx = eLen))
    ∧ (∀ j, handleSubmitAnswer qLen j = if j < qLen then j + 1 else j)
    ∧ (∀ j, handlePreviousQuestion j = if 0 < j then j - 1 else j)
    ∧ (∀ j, handleSubmitExercise eLen j = if j < eLen then j + 1 else j)
    ∧ (∀ j, handlePreviousExercise j = if 0 < j then j - 1 else j) := by
  have hqb := questionIndex_le hq
  have heb := exerciseIndex_le he
  refine ⟨hqb, heb, ?_, ?_, ?_, fun j => rfl, ?_, fun j => rfl⟩
  · intro hpos
    unfold questionsSectionView
    rw [if_pos hpos]
    by_cases hge : qLen ≤ qIdx
    · rw [if_pos hge]
      simp [Nat.le_antisymm hqb hge]
    · rw [if_neg hge]
      constructor
      · intro hcontra
        exact absurd hcontra (by simp)
      · intro heq
        omega
  · intro hpos
    unfold exercisesSectionView
    rw [if_pos hpos]
    by_cases hge : eLen ≤ eIdx
    · rw [if_pos hge]
      simp [Nat.le_antisymm heb hge]
    · rw [if_neg hge]
      constructor
      · intro hcontra
        exact absurd hcontra (by simp)
      · intro heq
        omega
  · intro j
    unfold handleSubmitAnswer
    by_cases hj : j < qLen
    · rw [if_pos (by omega), if_pos hj]
    · rw [if_neg (by omega), if_neg hj]
  · intro j
    unfold handleSubmitExercise
    by_cases hj : j < eLen
    · rw [if_pos (by omega), if_pos hj]
    · rw [if_neg (by omega), if_neg hj]

/-- Witness for C10 (amended): after two submits on a two-question list, the
index is at the bound and the completion state is rendered. -/
theorem skillTraining_index_bounds_witness :
    questionsSectionView 2 2 = SectionView.completeState ∧ (2 : Nat) ≤ 2 := by
  have h := skillTraining_index_bounds 2 2 1 0
    (.submit 1 (.submit 0 .start)) .start
  exact ⟨(h.2.2.1 (by decide)).mpr rfl, h.1⟩

end InterviewTrainer
